import Mathlib

/-!
Shallow embedding of `packages/create-se2/dist/cli.js`, the bootstrap CLI of
scaffold-eth-2: name validation, template copy filter and dot-marker rename,
manifest patch, package-manager selection and detection, and the effect trace
of the `run` pipeline (copy, manifest write, install, git init sequence).

String operations of JavaScript (`trim`, `startsWith`, `includes`,
anchored-prefix `replace`) are modelled on character lists so that every
definition evaluates by kernel reduction.
-/

namespace CreateSE2

/-- JavaScript `s.startsWith(p)`: `p` is a prefix of `s` (character-level). -/
def jsStartsWith (s p : String) : Bool :=
  p.toList.isPrefixOf s.toList

/-- JavaScript `s.includes(pat)`: `pat` occurs in `s` as a contiguous
substring (character-level). -/
def jsIncludes (s pat : String) : Bool :=
  decide (pat.toList <:+: s.toList)

/-- JavaScript `s.trim()`: strip leading and trailing whitespace
(character-level). -/
def jsTrim (s : String) : String :=
  String.mk (((s.toList.dropWhile Char.isWhitespace).reverse.dropWhile
    Char.isWhitespace).reverse)

/-- The fixed reserved-name list of cli.js (lines 62-83): package names the
generated project must not shadow. -/
def reservedPackageNames : List String :=
  ["@se-2/create-se2",
   "@ethersproject/networks",
   "@ethersproject/web",
   "@heroicons/react",
   "@rainbow-me/rainbowkit",
   "@uniswap/sdk",
   "daisyui",
   "ethers",
   "next",
   "nextjs-progressbar",
   "react",
   "react-blockies",
   "react-copy-to-clipboard",
   "react-dom",
   "react-fast-marquee",
   "react-hot-toast",
   "use-debounce",
   "usehooks-ts",
   "wagmi",
   "zustand"]

/-- The `cpy` rename hook of cli.js line 161, `name.replace(/^_dot_/, ".")`:
the anchored, non-global regex rewrites one leading occurrence of the
dot-marker `_dot_` to a literal dot and leaves every other name unchanged. -/
def rename (nm : String) : String :=
  if jsStartsWith nm "_dot_" then String.mk ('.' :: nm.toList.drop 5) else nm

/-- The exclusion fragments of cli.js line 155. -/
def ignoreList : List String :=
  ["node_modules", ".next", "CHANGELOG.md"]

/-- The `cpy` filter of cli.js lines 157-160: a source file passes iff its
template-relative path contains no fragment of `ignoreList` as a substring. -/
def copyFilter (relativePath : String) : Bool :=
  ignoreList.all (fun ignore => !(jsIncludes relativePath ignore))

/-- A file of the template tree, as the glob `**/*` presents it to `cpy`:
directory components relative to the template root, plus a base name. -/
structure TemplateEntry where
  dirs : List String
  base : String
deriving DecidableEq

/-- The template-relative source path of an entry. -/
def relativePath (f : TemplateEntry) : String :=
  String.intercalate "/" (f.dirs ++ [f.base])

/-- The destination-relative path of a copied entry: `cpy` keeps the
directory components and applies the rename hook to the base name. -/
def destRelativePath (f : TemplateEntry) : String :=
  String.intercalate "/" (f.dirs ++ [rename f.base])

/-- Whether the copy filter lets an entry through. -/
def copiedByFilter (f : TemplateEntry) : Bool :=
  copyFilter (relativePath f)

/-- JSON values, the shape `fs.readJson` produces for `package.json`. -/
inductive JVal where
  | null
  | bool (b : Bool)
  | num (n : Int)
  | str (s : String)
  | arr (elems : List JVal)
  | obj (fields : List (String × JVal))

/-- Whether an object read from JSON has a property named `k`. -/
def hasKey (fields : List (String × JVal)) (k : String) : Bool :=
  match fields with
  | [] => false
  | p :: t => if p.1 = k then true else hasKey t k

/-- The value of property `k` of an object read from JSON (first match). -/
def getKey (fields : List (String × JVal)) (k : String) : Option JVal :=
  match fields with
  | [] => none
  | p :: t => if p.1 = k then some p.2 else getKey t k

/-- JavaScript property assignment `o[k] = v` on an object decoded from JSON:
an existing key is overwritten in place, a missing key is appended. -/
def setKey (fields : List (String × JVal)) (k : String) (v : JVal) :
    List (String × JVal) :=
  if hasKey fields k then
    fields.map (fun p => if p.1 = k then (k, v) else p)
  else
    fields ++ [(k, v)]

/-- The manifest patch of cli.js lines 164-165: set `name` to the project
name, then set `version` to the literal `"0.1.0"`. -/
def patchManifest (projectName : String) (fields : List (String × JVal)) :
    List (String × JVal) :=
  setKey (setKey fields "name" (JVal.str projectName)) "version"
    (JVal.str "0.1.0")

theorem getKey_map_set_self (t : List (String × JVal)) (k : String) (v : JVal)
    (h : hasKey t k = true) :
    getKey (t.map (fun p => if p.1 = k then (k, v) else p)) k = some v := by
  induction t with
  | nil => simp [hasKey] at h
  | cons p t ih =>
    by_cases hp : p.1 = k
    · simp [getKey, hp]
    · simp only [hasKey, hp, if_false] at h
      simp [getKey, hp, ih h]

theorem getKey_map_set_ne (t : List (String × JVal)) (k : String) (v : JVal)
    (k' : String) (hne : k' ≠ k) :
    getKey (t.map (fun p => if p.1 = k then (k, v) else p)) k' = getKey t k' := by
  induction t with
  | nil => simp [getKey]
  | cons p t ih =>
    by_cases hp : p.1 = k
    · have h1 : ¬(k = k') := fun hh => hne hh.symm
      have h2 : ¬(p.1 = k') := by rw [hp]; exact h1
      simp [getKey, hp, h1, h2, ih]
    · by_cases hq : p.1 = k'
      · simp [getKey, hp, hq, hne]
      · simp [getKey, hp, hq, ih]

theorem getKey_append_self (t : List (String × JVal)) (k : String) (v : JVal)
    (h : hasKey t k = false) : getKey (t ++ [(k, v)]) k = some v := by
  induction t with
  | nil => simp [getKey]
  | cons p t ih =>
    by_cases hp : p.1 = k
    · simp [hasKey, hp] at h
    · simp only [hasKey, hp, if_false] at h
      simp [getKey, hp, ih h]

theorem getKey_append_ne (t : List (String × JVal)) (k : String) (v : JVal)
    (k' : String) (hne : k' ≠ k) :
    getKey (t ++ [(k, v)]) k' = getKey t k' := by
  induction t with
  | nil =>
    have h1 : ¬(k = k') := fun hh => hne hh.symm
    simp [getKey, h1]
  | cons p t ih =>
    by_cases hp : p.1 = k'
    · simp [getKey, hp]
    · simp [getKey, hp, ih]

theorem getKey_setKey_self (fields : List (String × JVal)) (k : String)
    (v : JVal) : getKey (setKey fields k v) k = some v := by
  unfold setKey
  by_cases h : hasKey fields k
  · simp only [h, if_true]
    exact getKey_map_set_self fields k v h
  · simp only [h, if_false]
    exact getKey_append_self fields k v (by simpa using h)

theorem getKey_setKey_ne (fields : List (String × JVal)) (k : String)
    (v : JVal) (k' : String) (hne : k' ≠ k) :
    getKey (setKey fields k v) k' = getKey fields k' := by
  unfold setKey
  by_cases h : hasKey fields k
  · simp only [h, if_true]
    exact getKey_map_set_ne fields k v k' hne
  · simp only [h, if_false]
    exact getKey_append_ne fields k v k' hne

/-- The closed enumeration of package managers. -/
inductive PM where
  | npm
  | yarn
  | pnpm
deriving DecidableEq

/-- The executable name of a package manager. -/
def pmName : PM → String
  | PM.npm => "npm"
  | PM.yarn => "yarn"
  | PM.pnpm => "pnpm"

/-- The recognized CLI flags of cli.js lines 51-60. -/
structure CliOptions where
  useNpm : Bool
  useYarn : Bool
  usePnpm : Bool
  skipGit : Bool
deriving DecidableEq

/-- Observable actions of one run, in order of occurrence. `log` is a console
print (message text elided: no claim concerns it); `prompt` is the interactive
name prompt; `copyTemplate` is the `cpy` template copy; `readJson` and
`writeJson` are the manifest read and the pretty-printed write
(`JSON.stringify(v, null, indent)`); `exec` is a spawned child process. -/
inductive Event where
  | log
  | prompt
  | copyTemplate (src dest : String)
  | readJson (path : String)
  | writeJson (path : String) (value : JVal) (indent : Nat)
  | exec (cmd : String) (args : List String) (cwd : String)

/-- The three user-facing `FriendlyError` causes of cli.js. -/
inductive FriendlyReason where
  | invalidName
  | reservedName
  | targetExists
deriving DecidableEq

/-- How the process ends: a normal return of `run` (node exits 0), a caught
`FriendlyError` (warning printed, `process.exit(1)`), or a rethrown error
(node's default fatal handling, non-zero exit). -/
inductive Outcome where
  | success
  | friendly (r : FriendlyReason)
  | fatal
deriving DecidableEq

/-- The run's surroundings: parsed input, flags, and the responses every
external collaborator (filesystem, prompt, environment, child processes)
would give. Feeding them in as data makes `run` a pure function of them. -/
structure Env where
  projectArg : Option String
  opts : CliOptions
  promptValue : Option String
  fsExists : String → Bool
  validForNewPackages : String → Bool
  userAgent : Option String
  pnpmProbeOk : Bool
  yarnProbeOk : Bool
  copyOk : Bool
  readJsonResult : Option (List (String × JVal))
  writeOk : Bool
  installOk : Bool
  gitInitOk : Bool
  gitAddOk : Bool
  gitCommitOk : Bool
  cwd : String
  installDir : String

/-- Node `path.join` of two segments, kept literal (no normalization). -/
def pathJoin (a b : String) : String :=
  a ++ "/" ++ b

/-- The probe half of `detectPackageManager` (cli.js lines 29-35, with the
outer catch of lines 36-38): try `pnpm --version`, then `yarn --version`;
if both fail the outer catch returns `npm`. -/
def detectProbe (e : Env) : List Event × PM :=
  if e.pnpmProbeOk then
    ([Event.exec "pnpm" ["--version"] e.cwd], PM.pnpm)
  else if e.yarnProbeOk then
    ([Event.exec "pnpm" ["--version"] e.cwd, Event.exec "yarn" ["--version"] e.cwd], PM.yarn)
  else
    ([Event.exec "pnpm" ["--version"] e.cwd, Event.exec "yarn" ["--version"] e.cwd], PM.npm)

/-- `detectPackageManager` of cli.js lines 17-39: match the
`npm_config_user_agent` string by prefix in the order pnpm, yarn, npm (a
missing or empty string is falsy and skips the block), else fall through to
the version probes. Returns the events of the probes it attempts. -/
def detectPackageManager (e : Env) : List Event × PM :=
  match e.userAgent with
  | some ua =>
    if ua ≠ "" then
      if jsStartsWith ua "pnpm" then ([], PM.pnpm)
      else if jsStartsWith ua "yarn" then ([], PM.yarn)
      else if jsStartsWith ua "npm" then ([], PM.npm)
      else detectProbe e
    else detectProbe e
  | none => detectProbe e

/-- The package-manager selection of cli.js line 170:
`usePnpm ? "pnpm" : useYarn ? "yarn" : useNpm ? "npm" : detectPackageManager()`. -/
def choosePackageManager (e : Env) : List Event × PM :=
  if e.opts.usePnpm then ([], PM.pnpm)
  else if e.opts.useYarn then ([], PM.yarn)
  else if e.opts.useNpm then ([], PM.npm)
  else detectPackageManager e

/-- The copy source of cli.js lines 146-149: always
`<installDir>/../templates/nextjs`, the single bundled template. -/
def selectedTemplatePath (e : Env) : String :=
  pathJoin (pathJoin (pathJoin e.installDir "..") "templates") "nextjs"

/-- Argument vector of the fixed commit command (cli.js lines 188-193). -/
def gitCommitArgs : List String :=
  ["commit", "--no-verify", "--message", "Initial commit from create-se2"]

/-- The final four console prints of cli.js lines 197-208. -/
def finalLogs : List Event :=
  [Event.log, Event.log, Event.log, Event.log]

/-- Cli.js lines 182-208: unless `skipGit`, run `git init`, `git add .`, and
the fixed commit in sequence against the destination, each awaited; a failing
command rethrows (fatal) and the later commands never start. -/
def gitPhase (e : Env) (targetPath : String) : List Event × Outcome :=
  if e.opts.skipGit then (finalLogs, Outcome.success)
  else
    let evInit := [Event.log, Event.exec "git" ["init"] targetPath]
    if !e.gitInitOk then (evInit, Outcome.fatal)
    else
      let evAdd := evInit ++ [Event.exec "git" ["add", "."] targetPath]
      if !e.gitAddOk then (evAdd, Outcome.fatal)
      else
        let evCommit := evAdd ++ [Event.exec "git" gitCommitArgs targetPath]
        if !e.gitCommitOk then (evCommit, Outcome.fatal)
        else (evCommit ++ finalLogs, Outcome.success)

/-- Cli.js lines 170-181: choose the package manager (possibly probing),
print, and run `<pm> install` in the destination; a non-zero exit rethrows. -/
def installPhase (e : Env) (targetPath : String) : List Event × Outcome :=
  let chosen := choosePackageManager e
  let evs := chosen.1 ++ [Event.log, Event.exec (pmName chosen.2) ["install"] targetPath]
  if !e.installOk then (evs, Outcome.fatal)
  else
    let rest := gitPhase e targetPath
    (evs ++ rest.1, rest.2)

/-- Cli.js lines 163-169: read `destination/package.json` (a failure
rethrows), patch `name` and `version`, and write it back with
`JSON.stringify(pkgJson, null, 2)`. -/
def patchPhase (e : Env) (targetPath projectPath : String) : List Event × Outcome :=
  let evRead := [Event.readJson (pathJoin targetPath "package.json")]
  match e.readJsonResult with
  | none => (evRead, Outcome.fatal)
  | some fields =>
    let evs := evRead ++ [Event.writeJson (pathJoin targetPath "package.json")
      (JVal.obj (patchManifest projectPath fields)) 2]
    if !e.writeOk then (evs, Outcome.fatal)
    else
      let rest := installPhase e targetPath
      (evs ++ rest.1, rest.2)

/-- Cli.js lines 150-162: print, then `cpy` the bundled template to the
destination (filter and rename as modelled above); a copy error rethrows. -/
def copyPhase (e : Env) (targetPath projectPath : String) : List Event × Outcome :=
  let evs := [Event.log, Event.copyTemplate (selectedTemplatePath e) targetPath]
  if !e.copyOk then (evs, Outcome.fatal)
  else
    let rest := patchPhase e targetPath projectPath
    (evs ++ rest.1, rest.2)

/-- Cli.js lines 114-216, from the blank print after naming onward: validate
the name (throwing `FriendlyError` on an invalid or reserved one), check the
destination for a collision, then copy and continue. A `FriendlyError` is
caught at the top: one warning print and `process.exit(1)`. -/
def runNamed (e : Env) (projectPath : String) : List Event × Outcome :=
  if !(e.validForNewPackages projectPath) then
    ([Event.log, Event.log], Outcome.friendly FriendlyReason.invalidName)
  else if reservedPackageNames.contains projectPath then
    ([Event.log, Event.log], Outcome.friendly FriendlyReason.reservedName)
  else
    let targetPath := pathJoin e.cwd projectPath
    if e.fsExists targetPath then
      ([Event.log, Event.log], Outcome.friendly FriendlyReason.targetExists)
    else
      let rest := copyPhase e targetPath projectPath
      (Event.log :: rest.1, rest.2)

/-- Cli.js `run` (lines 45-217): two welcome prints; a missing or
trim-to-empty positional argument opens the interactive prompt, whose
cancellation (an `undefined` answer) prints once more and returns normally
(exit 0); otherwise the named pipeline continues with the trimmed argument
or the prompted value as the project name. -/
def run (e : Env) : List Event × Outcome :=
  let projectPath :=
    match e.projectArg with
    | some s => jsTrim s
    | none => ""
  let welcome := [Event.log, Event.log]
  if projectPath = "" then
    let evs := welcome ++ [Event.log, Event.prompt]
    match e.promptValue with
    | none => (evs ++ [Event.log], Outcome.success)
    | some value => (evs ++ (runNamed e value).1, (runNamed e value).2)
  else
    (welcome ++ (runNamed e projectPath).1, (runNamed e projectPath).2)

/-- Events that touch the filesystem or spawn a process: the template copy,
the manifest write, and any child-process invocation. Console prints, the
prompt, and the manifest read are not among them. -/
def isSideEffect : Event → Bool
  | Event.copyTemplate _ _ => true
  | Event.writeJson _ _ _ => true
  | Event.exec _ _ _ => true
  | _ => false

/-- Whether an event is an invocation of `git`. -/
def isGitExec : Event → Bool
  | Event.exec c _ _ => c = "git"
  | _ => false

/-- Whether an event is the manifest write. -/
def isWriteEvent : Event → Bool
  | Event.writeJson _ _ _ => true
  | _ => false

/-- Whether an event is the template copy. -/
def isCopyEvent : Event → Bool
  | Event.copyTemplate _ _ => true
  | _ => false

/-- Shape of the events detection may emit: a `pnpm --version` or
`yarn --version` probe in the run's working directory. -/
def probeEvOk (cwd : String) : Event → Bool
  | Event.exec c args w => (c = "pnpm" || c = "yarn") && args = ["--version"] && w = cwd
  | _ => false

/-- Shape of the events of the git phase: console prints and `git` commands
in the destination. -/
def gitPhaseEvOk (t : String) : Event → Bool
  | Event.log => true
  | Event.exec c _ w => c = "git" && w = t
  | _ => false

theorem detectProbe_events (e : Env) :
    (detectProbe e).1.all (probeEvOk e.cwd) = true := by
  unfold detectProbe
  by_cases h1 : e.pnpmProbeOk <;> by_cases h2 : e.yarnProbeOk <;>
    simp [h1, h2, probeEvOk]

theorem detectPackageManager_events (e : Env) :
    (detectPackageManager e).1.all (probeEvOk e.cwd) = true := by
  unfold detectPackageManager
  cases hua : e.userAgent with
  | none => exact detectProbe_events e
  | some ua =>
    by_cases h0 : ua ≠ "" <;>
      by_cases h1 : jsStartsWith ua "pnpm" <;>
        by_cases h2 : jsStartsWith ua "yarn" <;>
          by_cases h3 : jsStartsWith ua "npm" <;>
            simp [h0, h1, h2, h3, detectProbe_events e]

theorem choosePackageManager_events (e : Env) :
    (choosePackageManager e).1.all (probeEvOk e.cwd) = true := by
  unfold choosePackageManager
  by_cases h1 : e.opts.usePnpm <;> by_cases h2 : e.opts.useYarn <;>
    by_cases h3 : e.opts.useNpm <;>
      simp [h1, h2, h3, detectPackageManager_events e]

theorem probeEvOk_not_write {c : String} {ev : Event} (h : probeEvOk c ev = true) :
    isWriteEvent ev = false := by
  cases ev <;> simp [probeEvOk, isWriteEvent] at h ⊢

theorem probeEvOk_not_copy {c : String} {ev : Event} (h : probeEvOk c ev = true) :
    isCopyEvent ev = false := by
  cases ev <;> simp [probeEvOk, isWriteEvent, isCopyEvent] at h ⊢

theorem probeEvOk_not_git {c : String} {ev : Event} (h : probeEvOk c ev = true) :
    isGitExec ev = false := by
  cases ev with
  | exec cmd args w =>
    simp only [probeEvOk, Bool.and_eq_true, Bool.or_eq_true, decide_eq_true_eq] at h
    rcases h with ⟨⟨hc, _⟩, _⟩
    rcases hc with hc | hc <;> simp [isGitExec, hc]
  | _ => simp [isGitExec]

theorem gitPhase_events (e : Env) (t : String) :
    (gitPhase e t).1.all (gitPhaseEvOk t) = true := by
  unfold gitPhase
  by_cases h1 : e.opts.skipGit <;> by_cases h2 : e.gitInitOk <;>
    by_cases h3 : e.gitAddOk <;> by_cases h4 : e.gitCommitOk <;>
      simp [h1, h2, h3, h4, finalLogs, gitPhaseEvOk]

theorem gitPhaseEvOk_not_write {t : String} {ev : Event}
    (h : gitPhaseEvOk t ev = true) : isWriteEvent ev = false := by
  cases ev <;> simp [gitPhaseEvOk, isWriteEvent] at h ⊢

theorem gitPhaseEvOk_not_copy {t : String} {ev : Event}
    (h : gitPhaseEvOk t ev = true) : isCopyEvent ev = false := by
  cases ev <;> simp [gitPhaseEvOk, isCopyEvent] at h ⊢

theorem gitPhase_not_friendly (e : Env) (t : String) (r : FriendlyReason) :
    (gitPhase e t).2 ≠ Outcome.friendly r := by
  unfold gitPhase
  by_cases h1 : e.opts.skipGit <;> by_cases h2 : e.gitInitOk <;>
    by_cases h3 : e.gitAddOk <;> by_cases h4 : e.gitCommitOk <;>
      simp [h1, h2, h3, h4]

theorem installPhase_not_friendly (e : Env) (t : String) (r : FriendlyReason) :
    (installPhase e t).2 ≠ Outcome.friendly r := by
  unfold installPhase
  by_cases h : e.installOk <;> simp [h, gitPhase_not_friendly e t r]

theorem patchPhase_not_friendly (e : Env) (t pp : String) (r : FriendlyReason) :
    (patchPhase e t pp).2 ≠ Outcome.friendly r := by
  unfold patchPhase
  cases hj : e.readJsonResult with
  | none => simp
  | some fields =>
    by_cases h : e.writeOk <;> simp [h, installPhase_not_friendly e t r]

theorem copyPhase_not_friendly (e : Env) (t pp : String) (r : FriendlyReason) :
    (copyPhase e t pp).2 ≠ Outcome.friendly r := by
  unfold copyPhase
  by_cases h : e.copyOk <;> simp [h, patchPhase_not_friendly e t pp r]

theorem installPhase_events (e : Env) (t : String) :
    ∀ ev ∈ (installPhase e t).1,
      probeEvOk e.cwd ev = true ∨ ev = Event.log ∨
      ev = Event.exec (pmName (choosePackageManager e).2) ["install"] t ∨
      gitPhaseEvOk t ev = true := by
  intro ev hev
  unfold installPhase at hev
  have hch := List.all_eq_true.mp (choosePackageManager_events e)
  have hg := List.all_eq_true.mp (gitPhase_events e t)
  by_cases h : e.installOk <;>
    simp only [h, Bool.not_true, Bool.not_false, if_true, if_false,
      Bool.false_eq_true, ite_true, ite_false, List.append_eq,
      List.mem_append, List.mem_cons, List.not_mem_nil, or_false] at hev
  · rcases hev with (hc | hl | hx) | hgm
    · exact Or.inl (hch ev hc)
    · exact Or.inr (Or.inl hl)
    · exact Or.inr (Or.inr (Or.inl hx))
    · exact Or.inr (Or.inr (Or.inr (hg ev hgm)))
  · rcases hev with hc | hl | hx
    · exact Or.inl (hch ev hc)
    · exact Or.inr (Or.inl hl)
    · exact Or.inr (Or.inr (Or.inl hx))

theorem installPhase_no_write (e : Env) (t : String) :
    ∀ ev ∈ (installPhase e t).1, isWriteEvent ev = false := by
  intro ev hev
  rcases installPhase_events e t ev hev with h | h | h | h
  · exact probeEvOk_not_write h
  · rw [h]; rfl
  · rw [h]; rfl
  · exact gitPhaseEvOk_not_write h

theorem installPhase_no_copy (e : Env) (t : String) :
    ∀ ev ∈ (installPhase e t).1, isCopyEvent ev = false := by
  intro ev hev
  rcases installPhase_events e t ev hev with h | h | h | h
  · exact probeEvOk_not_copy h
  · rw [h]; rfl
  · rw [h]; rfl
  · exact gitPhaseEvOk_not_copy h

theorem patchPhase_write_char (e : Env) (t pp : String) :
    ∀ p v i, Event.writeJson p v i ∈ (patchPhase e t pp).1 →
      p = pathJoin t "package.json" ∧ i = 2 ∧
      ∃ fields, e.readJsonResult = some fields ∧
        v = JVal.obj (patchManifest pp fields) := by
  intro p v i hev
  unfold patchPhase at hev
  cases hj : e.readJsonResult with
  | none => simp [hj] at hev
  | some fields =>
    by_cases h : e.writeOk <;>
      simp only [hj, h, Bool.not_true, Bool.not_false, Bool.false_eq_true,
        ite_true, ite_false, List.append_eq, List.mem_append, List.mem_cons,
        List.not_mem_nil, or_false] at hev
    · rcases hev with (hev | hev) | hm
      · exact absurd hev (by simp)
      · rw [Event.writeJson.injEq] at hev
        exact ⟨hev.1, hev.2.2, fields, rfl, hev.2.1⟩
      · exact absurd (installPhase_no_write e t _ hm) (by simp [isWriteEvent])
    · rcases hev with hev | hev
      · exact absurd hev (by simp)
      · rw [Event.writeJson.injEq] at hev
        exact ⟨hev.1, hev.2.2, fields, rfl, hev.2.1⟩

theorem patchPhase_no_copy (e : Env) (t pp : String) :
    ∀ ev ∈ (patchPhase e t pp).1, isCopyEvent ev = false := by
  intro ev hev
  unfold patchPhase at hev
  cases hj : e.readJsonResult with
  | none =>
    simp only [hj, List.mem_cons, List.not_mem_nil, or_false] at hev
    subst hev; rfl
  | some fields =>
    by_cases h : e.writeOk <;>
      simp only [hj, h, Bool.not_true, Bool.not_false, Bool.false_eq_true,
        ite_true, ite_false, List.append_eq, List.mem_append, List.mem_cons,
        List.not_mem_nil, or_false] at hev
    · rcases hev with (rfl | rfl) | hm
      · rfl
      · rfl
      · exact installPhase_no_copy e t ev hm
    · rcases hev with rfl | rfl
      · rfl
      · rfl

theorem copyPhase_write_char (e : Env) (t pp : String) :
    ∀ p v i, Event.writeJson p v i ∈ (copyPhase e t pp).1 →
      p = pathJoin t "package.json" ∧ i = 2 ∧
      ∃ fields, e.readJsonResult = some fields ∧
        v = JVal.obj (patchManifest pp fields) := by
  intro p v i hev
  unfold copyPhase at hev
  by_cases h : e.copyOk <;>
    simp only [h, Bool.not_true, Bool.not_false, Bool.false_eq_true,
      ite_true, ite_false, List.append_eq, List.mem_append, List.mem_cons,
      List.not_mem_nil, or_false] at hev
  · rcases hev with (hev | hev) | hm
    · exact absurd hev (by simp)
    · exact absurd hev (by simp)
    · exact patchPhase_write_char e t pp p v i hm
  · rcases hev with hev | hev
    · exact absurd hev (by simp)
    · exact absurd hev (by simp)

theorem copyPhase_copy_char (e : Env) (t pp : String) :
    ∀ s d, Event.copyTemplate s d ∈ (copyPhase e t pp).1 →
      s = selectedTemplatePath e ∧ d = t := by
  intro s d hev
  unfold copyPhase at hev
  by_cases h : e.copyOk <;>
    simp only [h, Bool.not_true, Bool.not_false, Bool.false_eq_true,
      ite_true, ite_false, List.append_eq, List.mem_append, List.mem_cons,
      List.not_mem_nil, or_false] at hev
  · rcases hev with (hev | hev) | hm
    · exact absurd hev (by simp)
    · rw [Event.copyTemplate.injEq] at hev
      exact ⟨hev.1, hev.2⟩
    · exact absurd (patchPhase_no_copy e t pp _ hm) (by simp [isCopyEvent])
  · rcases hev with hev | hev
    · exact absurd hev (by simp)
    · rw [Event.copyTemplate.injEq] at hev
      exact ⟨hev.1, hev.2⟩

theorem runNamed_friendly_char (e : Env) (p : String) (r : FriendlyReason)
    (h : (runNamed e p).2 = Outcome.friendly r) :
    (runNamed e p).1 = [Event.log, Event.log] := by
  unfold runNamed at h ⊢
  by_cases h1 : e.validForNewPackages p
  · by_cases h2 : p ∈ reservedPackageNames
    · simp [h1, h2]
    · by_cases h3 : e.fsExists (pathJoin e.cwd p)
      · simp [h1, h2, h3]
      · simp [h1, h2, h3] at h
        exact absurd h (copyPhase_not_friendly e _ p r)
  · simp [h1]

theorem runNamed_write_char (e : Env) (pp : String) :
    ∀ p v i, Event.writeJson p v i ∈ (runNamed e pp).1 →
      p = pathJoin (pathJoin e.cwd pp) "package.json" ∧ i = 2 ∧
      ∃ fields, e.readJsonResult = some fields ∧
        v = JVal.obj (patchManifest pp fields) := by
  intro p v i hev
  unfold runNamed at hev
  by_cases g1 : e.validForNewPackages pp
  · by_cases g2 : pp ∈ reservedPackageNames
    · simp [g1, g2] at hev
    · by_cases g3 : e.fsExists (pathJoin e.cwd pp)
      · simp [g1, g2, g3] at hev
      · have hc2 : reservedPackageNames.contains pp = false := by simp [g2]
        simp only [g1, hc2, g3, Bool.not_true, Bool.not_false, Bool.false_eq_true,
          ite_true, ite_false, List.mem_cons] at hev
        rcases hev with hev | hev
        · exact absurd hev (by simp)
        · exact copyPhase_write_char e _ pp p v i hev
  · simp [g1] at hev

theorem runNamed_copy_char (e : Env) (pp : String) :
    ∀ s d, Event.copyTemplate s d ∈ (runNamed e pp).1 →
      s = selectedTemplatePath e ∧ d = pathJoin e.cwd pp := by
  intro s d hev
  unfold runNamed at hev
  by_cases g1 : e.validForNewPackages pp
  · by_cases g2 : pp ∈ reservedPackageNames
    · simp [g1, g2] at hev
    · by_cases g3 : e.fsExists (pathJoin e.cwd pp)
      · simp [g1, g2, g3] at hev
      · have hc2 : reservedPackageNames.contains pp = false := by simp [g2]
        simp only [g1, hc2, g3, Bool.not_true, Bool.not_false, Bool.false_eq_true,
          ite_true, ite_false, List.mem_cons] at hev
        rcases hev with hev | hev
        · exact absurd hev (by simp)
        · exact copyPhase_copy_char e _ pp s d hev
  · simp [g1] at hev

theorem run_proceed (e : Env) (s : String) (ha : e.projectArg = some s)
    (hs : jsTrim s ≠ "") :
    run e = (Event.log :: Event.log :: (runNamed e (jsTrim s)).1,
      (runNamed e (jsTrim s)).2) := by
  unfold run
  simp [ha, hs]

theorem runNamed_proceed (e : Env) (pp : String)
    (h1 : e.validForNewPackages pp = true)
    (h2 : reservedPackageNames.contains pp = false)
    (h3 : e.fsExists (pathJoin e.cwd pp) = false) :
    runNamed e pp = (Event.log :: (copyPhase e (pathJoin e.cwd pp) pp).1,
      (copyPhase e (pathJoin e.cwd pp) pp).2) := by
  unfold runNamed
  simp only [h1, h2, h3, Bool.not_true, Bool.false_eq_true, ite_true, ite_false]

theorem copyPhase_ok (e : Env) (t pp : String) (h : e.copyOk = true) :
    copyPhase e t pp =
      (Event.log :: Event.copyTemplate (selectedTemplatePath e) t ::
        (patchPhase e t pp).1, (patchPhase e t pp).2) := by
  unfold copyPhase
  simp [h]

theorem patchPhase_ok (e : Env) (t pp : String)
    (fields : List (String × JVal)) (hj : e.readJsonResult = some fields)
    (hw : e.writeOk = true) :
    patchPhase e t pp =
      (Event.readJson (pathJoin t "package.json") ::
        Event.writeJson (pathJoin t "package.json")
          (JVal.obj (patchManifest pp fields)) 2 ::
        (installPhase e t).1, (installPhase e t).2) := by
  unfold patchPhase
  simp [hj, hw]

theorem installPhase_ok (e : Env) (t : String) (h : e.installOk = true) :
    installPhase e t =
      ((choosePackageManager e).1 ++
        (Event.log ::
          Event.exec (pmName (choosePackageManager e).2) ["install"] t ::
          (gitPhase e t).1), (gitPhase e t).2) := by
  unfold installPhase
  simp [h]

theorem run_prompt_cancel (e : Env)
    (h : e.projectArg = none ∨ ∃ s, e.projectArg = some s ∧ jsTrim s = "")
    (hp : e.promptValue = none) :
    run e = ([Event.log, Event.log, Event.log, Event.prompt, Event.log],
      Outcome.success) := by
  unfold run
  rcases h with h | ⟨s, hs, ht⟩
  · simp [h, hp]
  · simp [hs, ht, hp]

theorem run_prompt_submit (e : Env) (v : String)
    (h : e.projectArg = none ∨ ∃ s, e.projectArg = some s ∧ jsTrim s = "")
    (hp : e.promptValue = some v) :
    run e = (Event.log :: Event.log :: Event.log :: Event.prompt ::
      (runNamed e v).1, (runNamed e v).2) := by
  unfold run
  rcases h with h | ⟨s, hs, ht⟩
  · simp [h, hp]
  · simp [hs, ht, hp]

theorem runNamed_effect_free (e : Env) (p : String) (r : FriendlyReason)
    (h : (runNamed e p).2 = Outcome.friendly r) :
    ∀ ev ∈ (runNamed e p).1, isSideEffect ev = false := by
  intro ev hev
  rw [runNamed_friendly_char e p r h] at hev
  simp only [List.mem_cons, List.not_mem_nil, or_false] at hev
  rcases hev with rfl | rfl <;> rfl

theorem choose_filter_git (e : Env) :
    (choosePackageManager e).1.filter isGitExec = [] := by
  refine List.filter_eq_nil_iff.mpr (fun a ha => ?_)
  have h := List.all_eq_true.mp (choosePackageManager_events e) a ha
  simp [probeEvOk_not_git h]

theorem isGitExec_pmName (pm : PM) (a : List String) (w : String) :
    isGitExec (Event.exec (pmName pm) a w) = false := by
  cases pm <;> rfl

theorem patchPhase_has_write (e : Env) (t pp : String)
    (fields : List (String × JVal)) (hj : e.readJsonResult = some fields) :
    Event.writeJson (pathJoin t "package.json")
      (JVal.obj (patchManifest pp fields)) 2 ∈ (patchPhase e t pp).1 := by
  unfold patchPhase
  by_cases h : e.writeOk <;> simp [hj, h]

theorem jsStartsWith_marker (rest : String) :
    jsStartsWith ("_dot_" ++ rest) "_dot_" = true := by
  unfold jsStartsWith
  rw [List.isPrefixOf_iff_prefix]
  have hdata : ("_dot_" ++ rest).toList =
      '_' :: 'd' :: 'o' :: 't' :: '_' :: rest.toList := by
    show ("_dot_" ++ rest).data = _
    rw [String.data_append]
    rfl
  rw [hdata]
  exact List.prefix_append ['_', 'd', 'o', 't', '_'] rest.toList

theorem rename_marker (rest : String) :
    rename ("_dot_" ++ rest) = "." ++ rest := by
  unfold rename
  rw [jsStartsWith_marker rest]
  have hdata : ("_dot_" ++ rest).toList =
      '_' :: 'd' :: 'o' :: 't' :: '_' :: rest.toList := by
    show ("_dot_" ++ rest).data = _
    rw [String.data_append]
    rfl
  have hdot : ("." ++ rest).data = '.' :: rest.data := by
    rw [String.data_append]
    rfl
  simp only [ite_true, if_true]
  rw [hdata]
  calc String.mk ('.' :: ('_' :: 'd' :: 'o' :: 't' :: '_' :: rest.toList).drop 5)
      = String.mk ('.' :: rest.data) := rfl
    _ = String.mk (("." ++ rest).data) := by rw [hdot]
    _ = "." ++ rest := rfl

theorem rename_unmarked (nm : String) (h : jsStartsWith nm "_dot_" = false) :
    rename nm = nm := by
  unfold rename
  simp [h]

theorem copiedByFilter_iff (f : TemplateEntry) :
    copiedByFilter f = true ↔
      ∀ frag ∈ ignoreList, jsIncludes (relativePath f) frag = false := by
  simp only [copiedByFilter, copyFilter, List.all_eq_true, Bool.not_eq_true']

/-- C2, counterexample: the template file named `_dot_next` at the template
root passes the copy filter (its source-relative path contains no exclusion
fragment), yet its destination-relative path is `.next`, which contains the
exclusion fragment `.next`. So the copy filter does not guarantee that
produced destination paths are free of exclusion fragments. -/
theorem copy_exclusion_dest_counterexample :
    copiedByFilter ⟨[], "_dot_next"⟩ = true ∧
    ".next" ∈ ignoreList ∧
    jsIncludes (destRelativePath ⟨[], "_dot_next"⟩) ".next" = true := by
  refine ⟨?_, ?_, ?_⟩ <;> decide

/-- C2, amended: a template file is copied iff its template-relative source
path contains no exclusion fragment as a substring; and for every copied
file whose base name does not begin with the dot-marker (so the rename hook
leaves it unchanged), the destination-relative path also contains no
exclusion fragment. (The unamended destination-path claim fails when the
dot-marker rename introduces a fragment, e.g. `_dot_next` becomes `.next`.) -/
theorem copy_exclusion_source_iff :
    (∀ f : TemplateEntry, copiedByFilter f = true ↔
      ∀ frag ∈ ignoreList, jsIncludes (relativePath f) frag = false) ∧
    (∀ f : TemplateEntry, copiedByFilter f = true →
      jsStartsWith f.base "_dot_" = false →
      ∀ frag ∈ ignoreList, jsIncludes (destRelativePath f) frag = false) := by
  refine ⟨copiedByFilter_iff, fun f hc hb frag hfrag => ?_⟩
  have hdest : destRelativePath f = relativePath f := by
    unfold destRelativePath relativePath
    rw [rename_unmarked f.base hb]
  rw [hdest]
  exact (copiedByFilter_iff f).mp hc frag hfrag

/-- C2, witness for the amended theorem, at the entry `packages/README.md`. -/
theorem copy_exclusion_source_iff_witness :
    jsIncludes (destRelativePath ⟨["packages"], "README.md"⟩) ".next" = false :=
  copy_exclusion_source_iff.2 ⟨["packages"], "README.md"⟩ (by decide) (by decide)
    ".next" (by decide)

/-- C3: the rename hook strips the dot-marker exactly once — every base name
of the form `_dot_<rest>` becomes `.<rest>` (even when `<rest>` itself
starts with the marker, only the single leading occurrence is rewritten),
and a base name that does not start with the marker is kept unchanged. -/
theorem rename_dot_marker :
    (∀ rest : String, rename ("_dot_" ++ rest) = "." ++ rest) ∧
    (∀ nm : String, jsStartsWith nm "_dot_" = false → rename nm = nm) := by
  exact ⟨rename_marker, rename_unmarked⟩

/-- C3, witness: the marker is stripped once on `_dot__dot_gitignore`, and
`README.md` is kept unchanged. -/
theorem rename_dot_marker_witness :
    rename "_dot__dot_gitignore" = "._dot_gitignore" ∧
    rename "README.md" = "README.md" :=
  ⟨rename_dot_marker.1 "_dot_gitignore", rename_dot_marker.2 "README.md" (by decide)⟩

/-- C1: for a non-empty trimmed positional argument, a name failing the
`validate-npm-package-name` rule aborts with the invalid-name friendly
error; a syntactically valid name that is exactly equal to an entry of the
reserved list aborts with the reserved friendly error; otherwise neither
name error is the outcome. -/
theorem run_name_validation_trichotomy :
    ∀ (e : Env) (s : String), e.projectArg = some s → jsTrim s ≠ "" →
      ((e.validForNewPackages (jsTrim s) = false →
          (run e).2 = Outcome.friendly FriendlyReason.invalidName) ∧
       (e.validForNewPackages (jsTrim s) = true →
          jsTrim s ∈ reservedPackageNames →
          (run e).2 = Outcome.friendly FriendlyReason.reservedName) ∧
       (e.validForNewPackages (jsTrim s) = true →
          jsTrim s ∉ reservedPackageNames →
          (run e).2 ≠ Outcome.friendly FriendlyReason.invalidName ∧
          (run e).2 ≠ Outcome.friendly FriendlyReason.reservedName)) := by
  intro e s ha hs
  rw [run_proceed e s ha hs]
  refine ⟨fun hv => ?_, fun hv hm => ?_, fun hv hm => ?_⟩
  · unfold runNamed
    simp [hv]
  · unfold runNamed
    simp [hv, hm]
  · by_cases hex : e.fsExists (pathJoin e.cwd (jsTrim s))
    · unfold runNamed
      simp [hv, hm, hex]
    · rw [runNamed_proceed e (jsTrim s) hv (by simp [hm]) (by simpa using hex)]
      exact ⟨copyPhase_not_friendly e _ _ _, copyPhase_not_friendly e _ _ _⟩

/-- Environment of the invalid-name scenario: positional argument `My App`
and a validator that rejects every candidate. -/
def envInvalidName : Env :=
  ⟨some "My App", ⟨false, false, false, false⟩, none, fun _ => false,
   fun _ => false, none, true, true, true, some [], true, true, true, true,
   true, "/work", "/opt/create-se2/dist"⟩

/-- C1, witness: the invalid-name case at a concrete environment. -/
theorem run_name_validation_trichotomy_witness :
    (run envInvalidName).2 = Outcome.friendly FriendlyReason.invalidName :=
  (run_name_validation_trichotomy envInvalidName "My App" rfl (by decide)).1 rfl

/-- C7: when any explicit package-manager flag is set, the choice emits no
probe event, equals the flag priority `pnpm > yarn > npm`, and is the same
in every environment carrying the same flags (so neither the user agent nor
the probes are consulted); when no flag is set the choice is exactly the
detection result. -/
theorem package_manager_flag_priority :
    (∀ e : Env,
      (e.opts.usePnpm = true ∨ e.opts.useYarn = true ∨ e.opts.useNpm = true) →
      (choosePackageManager e).1 = [] ∧
      (choosePackageManager e).2 =
        (if e.opts.usePnpm then PM.pnpm
         else if e.opts.useYarn then PM.yarn else PM.npm) ∧
      (∀ e' : Env, e'.opts = e.opts →
        (choosePackageManager e').2 = (choosePackageManager e).2)) ∧
    (∀ e : Env, e.opts.usePnpm = false → e.opts.useYarn = false →
      e.opts.useNpm = false → choosePackageManager e = detectPackageManager e) := by
  constructor
  · intro e hflag
    refine ⟨?_, ?_, ?_⟩
    · rcases hflag with h | h | h
      · simp [choosePackageManager, h]
      · by_cases hp : e.opts.usePnpm <;> simp [choosePackageManager, hp, h]
      · by_cases hp : e.opts.usePnpm <;> by_cases hy : e.opts.useYarn <;>
          simp [choosePackageManager, hp, hy, h]
    · rcases hflag with h | h | h
      · simp [choosePackageManager, h]
      · by_cases hp : e.opts.usePnpm <;> simp [choosePackageManager, hp, h]
      · by_cases hp : e.opts.usePnpm <;> by_cases hy : e.opts.useYarn <;>
          simp [choosePackageManager, hp, hy, h]
    · intro e' he'
      unfold choosePackageManager
      rw [he']
      rcases hflag with h | h | h
      · simp [h]
      · by_cases hp : e.opts.usePnpm <;> simp [hp, h]
      · by_cases hp : e.opts.usePnpm <;> by_cases hy : e.opts.useYarn <;>
          simp [hp, hy, h]
  · intro e h1 h2 h3
    unfold choosePackageManager
    simp [h1, h2, h3]

/-- Environment with `--use-yarn` and `--use-pnpm` both set. -/
def envBothFlags : Env :=
  ⟨some "my-app", ⟨false, true, true, true⟩, none, fun _ => false,
   fun _ => true, some "npm/9.0.0", true, true, true, some [], true, true,
   true, true, true, "/work", "/opt/create-se2/dist"⟩

/-- C7, witness: with both `useYarn` and `usePnpm` set, pnpm wins. -/
theorem package_manager_flag_priority_witness :
    (choosePackageManager envBothFlags).2 = PM.pnpm := by
  have h := (package_manager_flag_priority.1 envBothFlags (Or.inl rfl)).2.1
  simpa using h

theorem detectProbe_cases (e : Env) :
    (detectProbe e).2 = PM.npm ∨ (detectProbe e).2 = PM.yarn ∨
      (detectProbe e).2 = PM.pnpm := by
  unfold detectProbe
  by_cases h1 : e.pnpmProbeOk <;> by_cases h2 : e.yarnProbeOk <;> simp [h1, h2]

/-- C8: detection always yields exactly one of npm, yarn, pnpm (it is a
total function: every failure path is caught); a non-empty user-agent
string is matched by prefix in the order pnpm, yarn, npm; with no match it
falls through to the probes, which return the first of `pnpm --version`,
`yarn --version` that succeeds, and npm when both fail (the outer catch). -/
theorem detect_package_manager_total :
    ∀ e : Env,
      ((detectPackageManager e).2 = PM.npm ∨
       (detectPackageManager e).2 = PM.yarn ∨
       (detectPackageManager e).2 = PM.pnpm) ∧
      (∀ ua, e.userAgent = some ua → ua ≠ "" →
        (jsStartsWith ua "pnpm" = true →
          (detectPackageManager e).2 = PM.pnpm) ∧
        (jsStartsWith ua "pnpm" = false → jsStartsWith ua "yarn" = true →
          (detectPackageManager e).2 = PM.yarn) ∧
        (jsStartsWith ua "pnpm" = false → jsStartsWith ua "yarn" = false →
          jsStartsWith ua "npm" = true →
          (detectPackageManager e).2 = PM.npm) ∧
        (jsStartsWith ua "pnpm" = false → jsStartsWith ua "yarn" = false →
          jsStartsWith ua "npm" = false →
          detectPackageManager e = detectProbe e)) ∧
      ((e.userAgent = none ∨ e.userAgent = some "") →
        detectPackageManager e = detectProbe e) ∧
      (e.pnpmProbeOk = true → (detectProbe e).2 = PM.pnpm) ∧
      (e.pnpmProbeOk = false → e.yarnProbeOk = true →
        (detectProbe e).2 = PM.yarn) ∧
      (e.pnpmProbeOk = false → e.yarnProbeOk = false →
        (detectProbe e).2 = PM.npm) := by
  intro e
  refine ⟨?_, ?_, ?_, ?_, ?_, ?_⟩
  · unfold detectPackageManager
    cases hua : e.userAgent with
    | none => exact detectProbe_cases e
    | some ua =>
      by_cases h0 : ua ≠ ""
      · by_cases h1 : jsStartsWith ua "pnpm"
        · simp [h0, h1]
        · by_cases h2 : jsStartsWith ua "yarn"
          · simp [h0, h1, h2]
          · by_cases h3 : jsStartsWith ua "npm"
            · simp [h0, h1, h2, h3]
            · simp only [h0, h1, h2, h3, Bool.not_eq_true, Bool.false_eq_true,
                ite_true, ite_false, if_true, if_false, ite_self]
              exact detectProbe_cases e
      · simp only [h0, ite_false, if_false, ite_self]
        exact detectProbe_cases e
  · intro ua hua hne
    constructor
    · intro h1
      unfold detectPackageManager
      rw [hua]
      simp [hne, h1]
    constructor
    · intro h1 h2
      unfold detectPackageManager
      rw [hua]
      simp [hne, h1, h2]
    constructor
    · intro h1 h2 h3
      unfold detectPackageManager
      rw [hua]
      simp [hne, h1, h2, h3]
    · intro h1 h2 h3
      unfold detectPackageManager
      rw [hua]
      simp [hne, h1, h2, h3]
  · intro h
    rcases h with h | h <;> (unfold detectPackageManager; rw [h]; try simp)
  · intro h
    unfold detectProbe
    simp [h]
  · intro h1 h2
    unfold detectProbe
    simp [h1, h2]
  · intro h1 h2
    unfold detectProbe
    simp [h1, h2]

/-- Environment whose user agent names yarn and whose probes would fail. -/
def envYarnUA : Env :=
  ⟨some "my-app", ⟨false, false, false, true⟩, none, fun _ => false,
   fun _ => true, some "yarn/1.22.19", false, false, true, some [], true,
   true, true, true, true, "/work", "/opt/create-se2/dist"⟩

/-- C8, witness: the yarn user-agent prefix decides detection. -/
theorem detect_package_manager_total_witness :
    (detectPackageManager envYarnUA).2 = PM.yarn :=
  ((detect_package_manager_total envYarnUA).2.1 "yarn/1.22.19" rfl
    (by decide)).2.1 (by decide) (by decide)

/-- Environment of the happy path: valid unreserved argument, every
collaborator succeeding, no flags, no user agent, pnpm probe succeeding. -/
def happyEnv : Env :=
  ⟨some "my-app", ⟨false, false, false, false⟩, none, fun _ => false,
   fun _ => true, none, true, true, true,
   some [("name", JVal.str "se-2"), ("version", JVal.str "0.0.1"),
     ("private", JVal.bool true)],
   true, true, true, true, true, "/work", "/opt/create-se2/dist"⟩

/-- C4: under the proceed path with the manifest successfully read, `name`
of the patched manifest is the validated project name, `version` is the
literal "0.1.0" whatever it was before, every other key keeps its original
value; the run's trace holds the write of that patched manifest to
`destination/package.json` with `JSON.stringify` indent 2, and every file
write of the whole run is that one. -/
theorem manifest_patch_frame :
    ∀ (e : Env) (s : String) (fields : List (String × JVal)),
      e.projectArg = some s → jsTrim s ≠ "" →
      e.validForNewPackages (jsTrim s) = true →
      reservedPackageNames.contains (jsTrim s) = false →
      e.fsExists (pathJoin e.cwd (jsTrim s)) = false →
      e.copyOk = true → e.readJsonResult = some fields →
      (getKey (patchManifest (jsTrim s) fields) "name" =
        some (JVal.str (jsTrim s))) ∧
      (getKey (patchManifest (jsTrim s) fields) "version" =
        some (JVal.str "0.1.0")) ∧
      (∀ k, k ≠ "name" → k ≠ "version" →
        getKey (patchManifest (jsTrim s) fields) k = getKey fields k) ∧
      Event.writeJson (pathJoin (pathJoin e.cwd (jsTrim s)) "package.json")
        (JVal.obj (patchManifest (jsTrim s) fields)) 2 ∈ (run e).1 ∧
      (∀ p v i, Event.writeJson p v i ∈ (run e).1 →
        p = pathJoin (pathJoin e.cwd (jsTrim s)) "package.json" ∧
        v = JVal.obj (patchManifest (jsTrim s) fields) ∧ i = 2) := by
  intro e s fields ha hs h1 h2 h3 hc hj
  refine ⟨?_, ?_, ?_, ?_, ?_⟩
  · unfold patchManifest
    rw [getKey_setKey_ne _ _ _ _ (by decide)]
    exact getKey_setKey_self _ _ _
  · exact getKey_setKey_self _ _ _
  · intro k hk1 hk2
    unfold patchManifest
    rw [getKey_setKey_ne _ _ _ _ hk2, getKey_setKey_ne _ _ _ _ hk1]
  · rw [run_proceed e s ha hs,
      runNamed_proceed e (jsTrim s) h1 h2 h3,
      copyPhase_ok e (pathJoin e.cwd (jsTrim s)) (jsTrim s) hc]
    exact List.mem_cons_of_mem _ (List.mem_cons_of_mem _
      (List.mem_cons_of_mem _ (List.mem_cons_of_mem _
        (List.mem_cons_of_mem _
          (patchPhase_has_write e (pathJoin e.cwd (jsTrim s)) (jsTrim s)
            fields hj)))))
  · intro p v i hev
    have hev' : Event.writeJson p v i ∈
        Event.log :: Event.log :: (runNamed e (jsTrim s)).1 := by
      rw [run_proceed e s ha hs] at hev
      exact hev
    simp only [List.mem_cons] at hev'
    rcases hev' with hev' | hev' | hev'
    · exact absurd hev' (by simp)
    · exact absurd hev' (by simp)
    · obtain ⟨hp, hi, fields', hj', hv⟩ :=
        runNamed_write_char e (jsTrim s) p v i hev'
      rw [hj] at hj'
      obtain rfl : fields = fields' := Option.some.inj hj'
      exact ⟨hp, hv, hi⟩

/-- C4, witness: the version field of the patched happy-path manifest. -/
theorem manifest_patch_frame_witness :
    getKey (patchManifest (jsTrim "my-app")
      [("name", JVal.str "se-2"), ("version", JVal.str "0.0.1"),
       ("private", JVal.bool true)]) "version" = some (JVal.str "0.1.0") :=
  (manifest_patch_frame happyEnv "my-app"
    [("name", JVal.str "se-2"), ("version", JVal.str "0.0.1"),
     ("private", JVal.bool true)] rfl (by decide) rfl (by decide) rfl rfl
    rfl).2.1

theorem run_prompt_submit_effect_free (e : Env) (v : String)
    (r : FriendlyReason)
    (h : e.projectArg = none ∨ ∃ s, e.projectArg = some s ∧ jsTrim s = "")
    (hp : e.promptValue = some v)
    (hout : (run e).2 = Outcome.friendly r) :
    ∀ ev ∈ (run e).1, isSideEffect ev = false := by
  have hout' : (runNamed e v).2 = Outcome.friendly r := by
    rw [run_prompt_submit e v h hp] at hout
    exact hout
  intro ev hev
  have hev' : ev ∈ Event.log :: Event.log :: Event.log :: Event.prompt ::
      (runNamed e v).1 := by
    rw [run_prompt_submit e v h hp] at hev
    exact hev
  simp only [List.mem_cons] at hev'
  rcases hev' with rfl | rfl | rfl | rfl | hev'
  · rfl
  · rfl
  · rfl
  · rfl
  · exact runNamed_effect_free e v r hout' ev hev'

/-- C5: every friendly abort (exit code 1) happens before any filesystem or
process side effect — such a run's trace has no copy, write, or exec event;
in particular, when the destination already exists and the name passes both
name checks, the run aborts with the collision friendly error and an
effect-free trace. -/
theorem pre_copy_atomicity :
    (∀ (e : Env) (r : FriendlyReason), (run e).2 = Outcome.friendly r →
      ∀ ev ∈ (run e).1, isSideEffect ev = false) ∧
    (∀ (e : Env) (s : String), e.projectArg = some s → jsTrim s ≠ "" →
      e.validForNewPackages (jsTrim s) = true →
      reservedPackageNames.contains (jsTrim s) = false →
      e.fsExists (pathJoin e.cwd (jsTrim s)) = true →
      (run e).2 = Outcome.friendly FriendlyReason.targetExists ∧
      ∀ ev ∈ (run e).1, isSideEffect ev = false) := by
  constructor
  · intro e r hout
    cases harg : e.projectArg with
    | none =>
      cases hp : e.promptValue with
      | none =>
        rw [run_prompt_cancel e (Or.inl harg) hp] at hout
        simp at hout
      | some v => exact run_prompt_submit_effect_free e v r (Or.inl harg) hp hout
    | some s =>
      by_cases hts : jsTrim s = ""
      · cases hp : e.promptValue with
        | none =>
          rw [run_prompt_cancel e (Or.inr ⟨s, harg, hts⟩) hp] at hout
          simp at hout
        | some v =>
          exact run_prompt_submit_effect_free e v r (Or.inr ⟨s, harg, hts⟩) hp hout
      · have hout' : (runNamed e (jsTrim s)).2 = Outcome.friendly r := by
          rw [run_proceed e s harg hts] at hout
          exact hout
        intro ev hev
        have hev' : ev ∈ Event.log :: Event.log :: (runNamed e (jsTrim s)).1 := by
          rw [run_proceed e s harg hts] at hev
          exact hev
        simp only [List.mem_cons] at hev'
        rcases hev' with rfl | rfl | hev'
        · rfl
        · rfl
        · exact runNamed_effect_free e (jsTrim s) r hout' ev hev'
  · intro e s ha hs h1 h2 h3
    have hm2 : jsTrim s ∉ reservedPackageNames := by
      intro hm
      simp [hm] at h2
    have hnamed : runNamed e (jsTrim s) =
        ([Event.log, Event.log], Outcome.friendly FriendlyReason.targetExists) := by
      unfold runNamed
      simp [h1, hm2, h3]
    constructor
    · rw [run_proceed e s ha hs, hnamed]
    · intro ev hev
      rw [run_proceed e s ha hs, hnamed] at hev
      simp only [List.mem_cons, List.not_mem_nil, or_false] at hev
      rcases hev with rfl | rfl | rfl | rfl <;> rfl

/-- Environment of the collision scenario: the destination already exists. -/
def envCollision : Env :=
  ⟨some "my-app", ⟨false, false, false, false⟩, none, fun _ => true,
   fun _ => true, none, true, true, true, some [], true, true, true, true,
   true, "/work", "/opt/create-se2/dist"⟩

/-- C5, witness: a pre-existing destination aborts with the collision
friendly error. -/
theorem pre_copy_atomicity_witness :
    (run envCollision).2 = Outcome.friendly FriendlyReason.targetExists :=
  (pre_copy_atomicity.2 envCollision "my-app" rfl (by decide) rfl (by decide)
    rfl).1

/-- C6: a missing or trim-to-empty project argument opens the interactive
prompt instead of reporting a validation failure; a cancelled prompt ends
the run normally (exit code 0) with an effect-free trace. -/
theorem no_name_prompt_path :
    ∀ e : Env,
      (e.projectArg = none ∨ ∃ s, e.projectArg = some s ∧ jsTrim s = "") →
      Event.prompt ∈ (run e).1 ∧
      (e.promptValue = none →
        run e = ([Event.log, Event.log, Event.log, Event.prompt, Event.log],
          Outcome.success) ∧
        ∀ ev ∈ (run e).1, isSideEffect ev = false) := by
  intro e h
  constructor
  · cases hp : e.promptValue with
    | none =>
      rw [run_prompt_cancel e h hp]
      simp
    | some v =>
      rw [run_prompt_submit e v h hp]
      simp
  · intro hp
    have heq := run_prompt_cancel e h hp
    refine ⟨heq, ?_⟩
    intro ev hev
    rw [heq] at hev
    simp only [List.mem_cons, List.not_mem_nil, or_false] at hev
    rcases hev with rfl | rfl | rfl | rfl | rfl <;> rfl

/-- Environment with no positional argument and a cancelled prompt. -/
def envPromptCancel : Env :=
  ⟨none, ⟨false, false, false, false⟩, none, fun _ => false, fun _ => true,
   none, true, true, true, some [], true, true, true, true, true, "/work",
   "/opt/create-se2/dist"⟩

/-- C6, witness: the cancelled-prompt run at a concrete environment. -/
theorem no_name_prompt_path_witness :
    run envPromptCancel =
      ([Event.log, Event.log, Event.log, Event.prompt, Event.log],
        Outcome.success) :=
  ((no_name_prompt_path envPromptCancel (Or.inl rfl)).2 rfl).1

theorem isGitExec_log : isGitExec Event.log = false := rfl

theorem isGitExec_copy (s d : String) :
    isGitExec (Event.copyTemplate s d) = false := rfl

theorem isGitExec_read (p : String) : isGitExec (Event.readJson p) = false := rfl

theorem isGitExec_write (p : String) (v : JVal) (i : Nat) :
    isGitExec (Event.writeJson p v i) = false := rfl

/-- C9: under the proceed path with copy, manifest, and install succeeding,
git commands run iff `skipGit` is false; then the `git` invocations of the
whole trace are exactly `init`, `add .`, and the fixed no-verify commit, in
that order, against the destination — truncated right after the first
failing command, which makes the run fatal with no rollback; with all three
succeeding the run succeeds. -/
theorem git_init_sequence :
    ∀ (e : Env) (s : String), e.projectArg = some s → jsTrim s ≠ "" →
      e.validForNewPackages (jsTrim s) = true →
      reservedPackageNames.contains (jsTrim s) = false →
      e.fsExists (pathJoin e.cwd (jsTrim s)) = false →
      e.copyOk = true → (∃ fields, e.readJsonResult = some fields) →
      e.writeOk = true → e.installOk = true →
      ((e.opts.skipGit = true →
        (run e).1.filter isGitExec = [] ∧ (run e).2 = Outcome.success) ∧
       (e.opts.skipGit = false →
        (e.gitInitOk = false →
          (run e).1.filter isGitExec =
            [Event.exec "git" ["init"] (pathJoin e.cwd (jsTrim s))] ∧
          (run e).2 = Outcome.fatal) ∧
        (e.gitInitOk = true → e.gitAddOk = false →
          (run e).1.filter isGitExec =
            [Event.exec "git" ["init"] (pathJoin e.cwd (jsTrim s)),
             Event.exec "git" ["add", "."] (pathJoin e.cwd (jsTrim s))] ∧
          (run e).2 = Outcome.fatal) ∧
        (e.gitInitOk = true → e.gitAddOk = true → e.gitCommitOk = false →
          (run e).1.filter isGitExec =
            [Event.exec "git" ["init"] (pathJoin e.cwd (jsTrim s)),
             Event.exec "git" ["add", "."] (pathJoin e.cwd (jsTrim s)),
             Event.exec "git" gitCommitArgs (pathJoin e.cwd (jsTrim s))] ∧
          (run e).2 = Outcome.fatal) ∧
        (e.gitInitOk = true → e.gitAddOk = true → e.gitCommitOk = true →
          (run e).1.filter isGitExec =
            [Event.exec "git" ["init"] (pathJoin e.cwd (jsTrim s)),
             Event.exec "git" ["add", "."] (pathJoin e.cwd (jsTrim s)),
             Event.exec "git" gitCommitArgs (pathJoin e.cwd (jsTrim s))] ∧
          (run e).2 = Outcome.success))) := by
  intro e s ha hs h1 h2 h3 hc hjE hw hi
  obtain ⟨fields, hj⟩ := hjE
  have e1 := run_proceed e s ha hs
  rw [runNamed_proceed e (jsTrim s) h1 h2 h3,
    copyPhase_ok e (pathJoin e.cwd (jsTrim s)) (jsTrim s) hc,
    patchPhase_ok e (pathJoin e.cwd (jsTrim s)) (jsTrim s) fields hj hw,
    installPhase_ok e (pathJoin e.cwd (jsTrim s)) hi] at e1
  have hfilter : (run e).1.filter isGitExec =
      ((gitPhase e (pathJoin e.cwd (jsTrim s))).1).filter isGitExec := by
    rw [e1]
    simp [List.filter_append, choose_filter_git, isGitExec_log, isGitExec_copy,
      isGitExec_read, isGitExec_write, isGitExec_pmName]
  have hout : (run e).2 = (gitPhase e (pathJoin e.cwd (jsTrim s))).2 := by
    rw [e1]
  rw [hfilter, hout]
  refine ⟨fun hskip => ?_,
    fun hskip => ⟨fun g1 => ?_, fun g1 g2 => ?_, fun g1 g2 g3 => ?_,
      fun g1 g2 g3 => ?_⟩⟩ <;>
    (unfold gitPhase;
     simp [hskip, finalLogs, isGitExec, isGitExec_log])
  · simp [g1, isGitExec]
  · simp [g1, g2, isGitExec]
  · simp [g1, g2, g3, isGitExec]
  · simp [g1, g2, g3, isGitExec]

/-- C9, witness: the happy-path trace runs exactly the three git commands. -/
theorem git_init_sequence_witness :
    (run happyEnv).1.filter isGitExec =
      [Event.exec "git" ["init"] (pathJoin "/work" (jsTrim "my-app")),
       Event.exec "git" ["add", "."] (pathJoin "/work" (jsTrim "my-app")),
       Event.exec "git" gitCommitArgs (pathJoin "/work" (jsTrim "my-app"))] ∧
    (run happyEnv).2 = Outcome.success :=
  ((git_init_sequence happyEnv "my-app" rfl (by decide) rfl (by decide) rfl rfl
    ⟨_, rfl⟩ rfl rfl).2 rfl).2.2.2 rfl rfl rfl

theorem run_copy_src (e : Env) :
    ∀ src dest, Event.copyTemplate src dest ∈ (run e).1 →
      src = selectedTemplatePath e := by
  intro src dest hev
  cases harg : e.projectArg with
  | none =>
    cases hp : e.promptValue with
    | none =>
      rw [run_prompt_cancel e (Or.inl harg) hp] at hev
      simp at hev
    | some v =>
      have hev' : Event.copyTemplate src dest ∈ Event.log :: Event.log ::
          Event.log :: Event.prompt :: (runNamed e v).1 := by
        rw [run_prompt_submit e v (Or.inl harg) hp] at hev
        exact hev
      simp only [List.mem_cons] at hev'
      rcases hev' with hev' | hev' | hev' | hev' | hev'
      · exact absurd hev' (by simp)
      · exact absurd hev' (by simp)
      · exact absurd hev' (by simp)
      · exact absurd hev' (by simp)
      · exact (runNamed_copy_char e v src dest hev').1
  | some s =>
    by_cases hts : jsTrim s = ""
    · cases hp : e.promptValue with
      | none =>
        rw [run_prompt_cancel e (Or.inr ⟨s, harg, hts⟩) hp] at hev
        simp at hev
      | some v =>
        have hev' : Event.copyTemplate src dest ∈ Event.log :: Event.log ::
            Event.log :: Event.prompt :: (runNamed e v).1 := by
          rw [run_prompt_submit e v (Or.inr ⟨s, harg, hts⟩) hp] at hev
          exact hev
        simp only [List.mem_cons] at hev'
        rcases hev' with hev' | hev' | hev' | hev' | hev'
        · exact absurd hev' (by simp)
        · exact absurd hev' (by simp)
        · exact absurd hev' (by simp)
        · exact absurd hev' (by simp)
        · exact (runNamed_copy_char e v src dest hev').1
    · have hev' : Event.copyTemplate src dest ∈ Event.log :: Event.log ::
          (runNamed e (jsTrim s)).1 := by
        rw [run_proceed e s harg hts] at hev
        exact hev
      simp only [List.mem_cons] at hev'
      rcases hev' with hev' | hev' | hev'
      · exact absurd hev' (by simp)
      · exact absurd hev' (by simp)
      · exact (runNamed_copy_char e (jsTrim s) src dest hev').1

/-- C10: every template copy of every run reads from the single bundled
template `<installDir>/../templates/nextjs`; the source depends on nothing
but the tool's own installation directory — no name, flag, environment
variable, or prompt input selects a different template. -/
theorem fixed_template_choice :
    (∀ (e : Env) (src dest : String),
      Event.copyTemplate src dest ∈ (run e).1 →
      src = selectedTemplatePath e) ∧
    (∀ e e' : Env, e.installDir = e'.installDir →
      selectedTemplatePath e = selectedTemplatePath e') := by
  constructor
  · exact run_copy_src
  · intro e e' h
    unfold selectedTemplatePath pathJoin
    rw [h]

/-- C10, witness: the happy-path copy reads from the bundled template. -/
theorem fixed_template_choice_witness :
    "/opt/create-se2/dist/../templates/nextjs" =
      selectedTemplatePath happyEnv :=
  fixed_template_choice.1 happyEnv "/opt/create-se2/dist/../templates/nextjs"
    "/work/my-app"
    (List.Mem.tail _ (List.Mem.tail _ (List.Mem.tail _ (List.Mem.tail _
      (List.Mem.head _)))))

end CreateSE2
